import Mathlib

/-!
# Verification of the omni-transaction Bitcoin encoding core

Shallow embedding of the Bitcoin transaction encoding and signature-hash
engine of the `omni-transaction-rs` crate.  Bytes are modelled as `Nat`
(meaningful values `< 256`), byte buffers as `List Nat`, fallible
operations as `Option`.  The double-SHA-256 function is kept abstract: the
properties verified here are about byte layout, and hold for every hash
function, so it is passed as a parameter `hash256 : List Nat → List Nat`.
-/

namespace OmniBtc

/-- Little-endian encoding of `n` on `w` bytes (Rust's `u32::to_le_bytes`,
`u64::to_le_bytes`, truncating above `256^w`). -/
def leBytes : Nat → Nat → List Nat
  | 0, _ => []
  | w + 1, n => (n % 256) :: leBytes w (n / 256)

/-- Little-endian interpretation of a byte list as a natural number. -/
def fromLE : List Nat → Nat
  | [] => 0
  | b :: bs => b + 256 * fromLE bs

/-- Read exactly `w` bytes from the front of a buffer; fails (like the Rust
readers' `UnexpectedEof`) when the buffer is shorter. -/
def readBytes (w : Nat) (bs : List Nat) : Option (List Nat × List Nat) :=
  if w ≤ bs.length then some (bs.take w, bs.drop w) else none

/-- Read a `w`-byte little-endian unsigned integer from the front of a buffer. -/
def readLE (w : Nat) (bs : List Nat) : Option (Nat × List Nat) :=
  (readBytes w bs).map (fun p => (fromLE p.1, p.2))

/-- Bitcoin transaction input sequence number
(`src/bitcoin/types/tx_in/sequence.rs`: `pub struct Sequence(pub u32)`). -/
structure Sequence where
  val : Nat
deriving DecidableEq, Repr

namespace Sequence

/-- `Sequence::SIZE`: serialized length of a `u32`. -/
def SIZE : Nat := 4

/-- `Sequence::MAX = Self(0xFFFFFFFF)`. -/
def MAX : Sequence := ⟨0xFFFFFFFF⟩

/-- `Sequence::ZERO = Self(0)`. -/
def ZERO : Sequence := ⟨0⟩

/-- `Sequence::MIN_NO_RBF = Self(0xFFFFFFFE)`. -/
def MIN_NO_RBF : Sequence := ⟨0xFFFFFFFE⟩

/-- `Sequence::ENABLE_LOCKTIME_NO_RBF = Self::MIN_NO_RBF`. -/
def ENABLE_LOCKTIME_NO_RBF : Sequence := MIN_NO_RBF

/-- `Sequence::ENABLE_RBF_NO_LOCKTIME = Self(0xFFFFFFFD)`. -/
def ENABLE_RBF_NO_LOCKTIME : Sequence := ⟨0xFFFFFFFD⟩

/-- `impl Default for Sequence`: the default value of sequence is `0xffffffff`. -/
instance : Inhabited Sequence := ⟨MAX⟩

/-- `impl Encodable for Sequence`: delegates to the `u32` encoder.
Modelled from the spec: the `u32` encoder itself (`encoding/encode.rs`, not in
the sources) writes the value as a fixed-width 4-byte little-endian integer.
The Rust `encode` returns the number of bytes written; here that count is the
length of the returned buffer. -/
def encode (s : Sequence) : List Nat := leBytes 4 s.val

/-- `impl Decodable for Sequence`: delegates to the `u32` decoder and wraps
with `Sequence`.  Modelled from the spec: the `u32` decoder (not in the
sources) reads a 4-byte little-endian integer, failing on a truncated source. -/
def decode (bs : List Nat) : Option (Sequence × List Nat) :=
  (readLE 4 bs).map (fun p => (⟨p.1⟩, p.2))

end Sequence

/-- 32-byte digest (`src/bitcoin/types/tx_in/hash.rs`, not in the sources).
Modelled from the spec: a 32-byte opaque digest whose wire encoding is the
raw 32 bytes. -/
structure Hash where
  bytes : List Nat
deriving DecidableEq, Repr

namespace Hash

/-- `Hash::all_zeros()`: the all-zeros digest. -/
def all_zeros : Hash := ⟨List.replicate 32 0⟩

instance : Inhabited Hash := ⟨all_zeros⟩

/-- Modelled from the spec: the wire encoding of a `Hash` is its 32 raw bytes. -/
def encode (h : Hash) : List Nat := h.bytes

/-- Modelled from the spec: decoding a `Hash` reads exactly 32 bytes. -/
def decode (bs : List Nat) : Option (Hash × List Nat) :=
  (readBytes 32 bs).map (fun p => (⟨p.1⟩, p.2))

end Hash

/-- `src/bitcoin/types/tx_in/tx_id.rs`: `pub struct Txid(pub Hash)`. -/
structure Txid where
  hash : Hash
deriving DecidableEq, Repr

namespace Txid

/-- `Txid::all_zeros()`. -/
def all_zeros : Txid := ⟨Hash.all_zeros⟩

instance : Inhabited Txid := ⟨all_zeros⟩

/-- `impl Encodable for Txid`: `self.0.encode(w)`. -/
def encode (t : Txid) : List Nat := t.hash.encode

/-- `impl Decodable for Txid`: `Decodable::decode(r).map(Txid)`. -/
def decode (bs : List Nat) : Option (Txid × List Nat) :=
  (Hash.decode bs).map (fun p => (⟨p.1⟩, p.2))

end Txid

/-- Modelled from the spec: the compact-size encoder (`encoding/`, not in the
sources) always chooses the minimal-width form: values `< 0xFD` as one byte;
`≥ 0xFD` and `< 0x10000` as marker `0xFD` + 2 bytes LE; `< 2^32` as marker
`0xFE` + 4 bytes LE; otherwise marker `0xFF` + 8 bytes LE. -/
def encode_varint (n : Nat) : List Nat :=
  if n < 0xFD then [n]
  else if n < 0x10000 then 0xFD :: leBytes 2 n
  else if n < 0x100000000 then 0xFE :: leBytes 4 n
  else 0xFF :: leBytes 8 n

/-- Modelled from the spec: the compact-size decoder (`encoding/`, not in the
sources) accepts only the minimal form and rejects non-canonical (over-long)
encodings as malformed, returning the decoded value and the remaining bytes. -/
def decode_varint : List Nat → Option (Nat × List Nat)
  | [] => none
  | b :: rest =>
    if b = 0xFD then
      match readLE 2 rest with
      | some (v, rest2) => if v < 0xFD then none else some (v, rest2)
      | none => none
    else if b = 0xFE then
      match readLE 4 rest with
      | some (v, rest2) => if v < 0x10000 then none else some (v, rest2)
      | none => none
    else if b = 0xFF then
      match readLE 8 rest with
      | some (v, rest2) => if v < 0x100000000 then none else some (v, rest2)
      | none => none
    else some (b, rest)

/-- `OutPoint` (`src/bitcoin/types/tx_in/outpoint.rs`, not in the sources).
Modelled from the spec: `(Txid, output index u32)`. -/
structure OutPoint where
  txid : Txid
  vout : Nat
deriving DecidableEq, Repr

instance : Inhabited OutPoint := ⟨⟨Txid.all_zeros, 0⟩⟩

/-- Modelled from the spec: a fixed 36-byte wire encoding — the txid's 32
bytes followed by the output index as 4-byte little-endian. -/
def encodeOutPoint (op : OutPoint) : List Nat :=
  op.txid.encode ++ leBytes 4 op.vout

/-- Modelled from the spec: a script buffer's wire encoding is its
compact-size length prefix followed by its raw bytes. -/
def encodeScriptBuf (s : List Nat) : List Nat :=
  encode_varint s.length ++ s

/-- Modelled from the spec: a witness's wire encoding is a count-prefixed
sequence of length-prefixed byte strings; an empty witness is a zero count. -/
def encodeWitness (w : List (List Nat)) : List Nat :=
  encode_varint w.length ++ (w.map (fun item => encode_varint item.length ++ item)).flatten

/-- `TxIn` (`src/bitcoin/types/tx_in/mod.rs`, not in the sources).  Modelled
from the spec: `(previous_output, script_sig, sequence, witness)`. -/
structure TxIn where
  previous_output : OutPoint
  script_sig : List Nat
  sequence : Sequence
  witness : List (List Nat)
deriving DecidableEq, Repr

instance : Inhabited TxIn := ⟨⟨default, [], default, []⟩⟩

/-- `TxOut` (`src/bitcoin/types/tx_out/mod.rs`, not in the sources).  Modelled
from the spec: `(value: Amount, script_pubkey: ScriptBuf)`. -/
structure TxOut where
  value : Nat
  script_pubkey : List Nat
deriving DecidableEq, Repr

/-- Modelled from the spec: a transaction input is serialized (in the
non-witness part) as its outpoint, its script_sig, and its sequence. -/
def encodeTxIn (i : TxIn) : List Nat :=
  encodeOutPoint i.previous_output ++ encodeScriptBuf i.script_sig ++ i.sequence.encode

/-- Modelled from the spec: a transaction output is serialized as its value
as an 8-byte little-endian amount followed by its script_pubkey. -/
def encodeTxOut (o : TxOut) : List Nat :=
  leBytes 8 o.value ++ encodeScriptBuf o.script_pubkey

/-- `BitcoinTransaction` (`src/bitcoin/bitcoin_transaction.rs`, not in the
sources).  Modelled from the spec: `(version, lock_time, inputs, outputs)`. -/
structure BitcoinTransaction where
  version : Nat
  lock_time : Nat
  input : List TxIn
  output : List TxOut
deriving DecidableEq, Repr

/-- Modelled from the spec (§4.3): the non-segwit canonical wire encoding —
version, compact-size input count, each input, compact-size output count,
each output, lock_time.  The buffer is accumulated left to right as the Rust
encoder writes into its `Vec`. -/
def nonSegwitSerialize (tx : BitcoinTransaction) : List Nat :=
  leBytes 4 tx.version
  ++ encode_varint tx.input.length
  ++ tx.input.foldl (fun acc i => acc ++ encodeTxIn i) []
  ++ encode_varint tx.output.length
  ++ tx.output.foldl (fun acc o => acc ++ encodeTxOut o) []
  ++ leBytes 4 tx.lock_time

/-- Modelled from the spec (§4.3): the segwit-marked (BIP-144) wire
encoding — version, marker+flag `0x00 0x01`, inputs without witnesses
inline, outputs, then every input's witness in input order, lock_time. -/
def segwitMarkedSerialize (tx : BitcoinTransaction) : List Nat :=
  leBytes 4 tx.version
  ++ [0x00, 0x01]
  ++ encode_varint tx.input.length
  ++ tx.input.foldl (fun acc i => acc ++ encodeTxIn i) []
  ++ encode_varint tx.output.length
  ++ tx.output.foldl (fun acc o => acc ++ encodeTxOut o) []
  ++ tx.input.foldl (fun acc i => acc ++ encodeWitness i.witness) []
  ++ leBytes 4 tx.lock_time

/-- `BitcoinTransaction::serialize()` (not in the sources).  Modelled from
the spec (§4.3): if any input carries a non-empty witness the segwit-marked
form is produced, otherwise the non-segwit form. -/
def serialize (tx : BitcoinTransaction) : List Nat :=
  if tx.input.any (fun i => !i.witness.isEmpty) then segwitMarkedSerialize tx
  else nonSegwitSerialize tx

/-- `BitcoinTransaction::build_for_signing_segwit` (not in the sources).
Modelled from the spec (§4.4): the BIP-143 preimage — version, hashPrevouts,
hashSequence, the outpoint of `input_index`, the script code, the input
value, the sequence of `input_index`, hashOutputs, lock_time, sighash type.
Indexing an out-of-range `input_index` fails fast (`none`). -/
def build_for_signing_segwit (hash256 : List Nat → List Nat)
    (tx : BitcoinTransaction) (sighash_type : Nat) (input_index : Nat)
    (script_code : List Nat) (input_value : Nat) : Option (List Nat) :=
  match tx.input.get? input_index with
  | none => none
  | some inp =>
    some (leBytes 4 tx.version
      ++ hash256 (tx.input.foldl (fun acc i => acc ++ encodeOutPoint i.previous_output) [])
      ++ hash256 (tx.input.foldl (fun acc i => acc ++ i.sequence.encode) [])
      ++ encodeOutPoint inp.previous_output
      ++ encodeScriptBuf script_code
      ++ leBytes 8 input_value
      ++ inp.sequence.encode
      ++ hash256 (tx.output.foldl (fun acc o => acc ++ encodeTxOut o) [])
      ++ leBytes 4 tx.lock_time
      ++ leBytes 4 sighash_type)

/-- `BitcoinTransaction::build_for_signing_legacy` (not in the sources).
Modelled from the spec (§4.4, §9): the transaction is serialized in the
non-segwit form with each input's *current* script_sig — the caller has
pre-populated the script_sig of the input being signed and left every other
input's script_sig empty — and the 4-byte little-endian sighash type is
appended. -/
def build_for_signing_legacy (tx : BitcoinTransaction) (sighash_type : Nat) : List Nat :=
  nonSegwitSerialize tx ++ leBytes 4 sighash_type

/-- The BIP-143 preimage as the reference algorithm states it: the plain
concatenation of the ten listed items, with the three hashes taken over the
per-item serializations joined in order. -/
def bip143Preimage (hash256 : List Nat → List Nat) (tx : BitcoinTransaction)
    (sighash_type : Nat) (input_index : Nat) (script_code : List Nat)
    (input_value : Nat) : List Nat :=
  leBytes 4 tx.version
  ++ hash256 ((tx.input.map (fun i => encodeOutPoint i.previous_output)).flatten)
  ++ hash256 ((tx.input.map (fun i => i.sequence.encode)).flatten)
  ++ encodeOutPoint (tx.input.getD input_index default).previous_output
  ++ encodeScriptBuf script_code
  ++ leBytes 8 input_value
  ++ (tx.input.getD input_index default).sequence.encode
  ++ hash256 ((tx.output.map encodeTxOut).flatten)
  ++ leBytes 4 tx.lock_time
  ++ leBytes 4 sighash_type

/-- The input list of the legacy-sighash serialization form as the spec
states it: input `i` keeps its real script_sig, every other input is
serialized with an empty script_sig. -/
def blankAllExcept : Nat → List TxIn → List TxIn
  | _, [] => []
  | 0, inp :: rest => inp :: rest.map (fun r => { r with script_sig := [] })
  | Nat.succ i, inp :: rest => { inp with script_sig := [] } :: blankAllExcept i rest

/-- The transaction in which input `i` keeps its real script_sig and every
other input's script_sig is emptied. -/
def legacySigningForm (tx : BitcoinTransaction) (i : Nat) : BitcoinTransaction :=
  { tx with input := blankAllExcept i tx.input }

/-- The non-segwit byte layout exactly as the claim lists it: version,
compact-size input count, inputs, compact-size output count, outputs,
lock_time. -/
def claimedNonSegwitLayout (tx : BitcoinTransaction) : List Nat :=
  leBytes 4 tx.version
  ++ encode_varint tx.input.length
  ++ (tx.input.map encodeTxIn).flatten
  ++ encode_varint tx.output.length
  ++ (tx.output.map encodeTxOut).flatten
  ++ leBytes 4 tx.lock_time

/-- The segwit-marked byte layout exactly as the claim lists it, with a
zero-count witness marker for every input whose witness is empty. -/
def claimedSegwitLayout (tx : BitcoinTransaction) : List Nat :=
  leBytes 4 tx.version
  ++ [0x00, 0x01]
  ++ encode_varint tx.input.length
  ++ (tx.input.map encodeTxIn).flatten
  ++ encode_varint tx.output.length
  ++ (tx.output.map encodeTxOut).flatten
  ++ (tx.input.map (fun i => if i.witness = [] then [0x00] else encodeWitness i.witness)).flatten
  ++ leBytes 4 tx.lock_time

/-- Modelled from the spec: `Amount` is an integral satoshi count (`u64`)
encoded as a fixed 8-byte little-endian integer. -/
def encodeAmount (a : Nat) : List Nat := leBytes 8 a

/-- Modelled from the spec: decoding an `Amount` reads 8 bytes little-endian. -/
def decodeAmount (bs : List Nat) : Option (Nat × List Nat) := readLE 8 bs

/-- Modelled from the spec: `Version` has a fixed 4-byte LE wire encoding. -/
def encodeVersion (v : Nat) : List Nat := leBytes 4 v

/-- Modelled from the spec: decoding a `Version` reads 4 bytes little-endian. -/
def decodeVersion (bs : List Nat) : Option (Nat × List Nat) := readLE 4 bs

/-- Modelled from the spec: `LockTime` has a fixed 4-byte LE wire encoding. -/
def encodeLockTime (n : Nat) : List Nat := leBytes 4 n

/-- Modelled from the spec: decoding a `LockTime` reads 4 bytes little-endian. -/
def decodeLockTime (bs : List Nat) : Option (Nat × List Nat) := readLE 4 bs

/-- Modelled from the spec: decoding an `OutPoint` reads the 32-byte txid
then the 4-byte LE output index. -/
def decodeOutPoint (bs : List Nat) : Option (OutPoint × List Nat) := do
  let (t, r1) ← Txid.decode bs
  let (v, r2) ← readLE 4 r1
  pure (⟨t, v⟩, r2)

/-- Modelled from the spec: decoding a script buffer reads its compact-size
length prefix and then exactly that many raw bytes. -/
def decodeScriptBuf (bs : List Nat) : Option (List Nat × List Nat) := do
  let (n, r1) ← decode_varint bs
  readBytes n r1

/-- Modelled from the spec: read `n` length-prefixed witness items. -/
def decodeWitnessItems : Nat → List Nat → Option (List (List Nat) × List Nat)
  | 0, bs => some ([], bs)
  | n + 1, bs => do
    let (item, r1) ← decodeScriptBuf bs
    let (items, r2) ← decodeWitnessItems n r1
    pure (item :: items, r2)

/-- Modelled from the spec: decoding a witness reads the compact-size item
count and then that many length-prefixed byte strings. -/
def decodeWitness (bs : List Nat) : Option (List (List Nat) × List Nat) := do
  let (n, r1) ← decode_varint bs
  decodeWitnessItems n r1

/-- Modelled from the spec: the standalone (non-witness) wire form of a
`TxIn` is outpoint, script_sig, sequence; decoding it yields an input with
an empty witness, since the witness is encoded separately in the
segwit-marked transaction form. -/
def decodeTxIn (bs : List Nat) : Option (TxIn × List Nat) := do
  let (op, r1) ← decodeOutPoint bs
  let (ss, r2) ← decodeScriptBuf r1
  let (sq, r3) ← Sequence.decode r2
  pure (⟨op, ss, sq, []⟩, r3)

/-- Modelled from the spec: read `n` serialized transaction inputs. -/
def decodeTxIns : Nat → List Nat → Option (List TxIn × List Nat)
  | 0, bs => some ([], bs)
  | n + 1, bs => do
    let (i, r1) ← decodeTxIn bs
    let (is, r2) ← decodeTxIns n r1
    pure (i :: is, r2)

/-- Modelled from the spec: decoding a `TxOut` reads the 8-byte LE amount
and then the length-prefixed script_pubkey. -/
def decodeTxOut (bs : List Nat) : Option (TxOut × List Nat) := do
  let (a, r1) ← readLE 8 bs
  let (spk, r2) ← decodeScriptBuf r1
  pure (⟨a, spk⟩, r2)

/-- Modelled from the spec: read `n` serialized transaction outputs. -/
def decodeTxOuts : Nat → List Nat → Option (List TxOut × List Nat)
  | 0, bs => some ([], bs)
  | n + 1, bs => do
    let (o, r1) ← decodeTxOut bs
    let (os, r2) ← decodeTxOuts n r1
    pure (o :: os, r2)

/-- Modelled from the spec: read one witness per input, in input order. -/
def decodeWitnesses : Nat → List Nat → Option (List (List (List Nat)) × List Nat)
  | 0, bs => some ([], bs)
  | n + 1, bs => do
    let (w, r1) ← decodeWitness bs
    let (ws, r2) ← decodeWitnesses n r1
    pure (w :: ws, r2)

/-- Modelled from the spec (§4.3): parse the non-segwit transaction body
after the version — input count, inputs, output count, outputs, lock_time. -/
def nonSegwitParse (ver : Nat) (bs : List Nat) : Option (BitcoinTransaction × List Nat) := do
  let (nin, r1) ← decode_varint bs
  let (ins, r2) ← decodeTxIns nin r1
  let (nout, r3) ← decode_varint r2
  let (outs, r4) ← decodeTxOuts nout r3
  let (lt, r5) ← readLE 4 r4
  pure (⟨ver, lt, ins, outs⟩, r5)

/-- Modelled from the spec (§4.3): parse the segwit-marked transaction body
after the version and the marker+flag — input count, inputs, output count,
outputs, one witness per input reattached in input order, lock_time. -/
def segwitParse (ver : Nat) (bs : List Nat) : Option (BitcoinTransaction × List Nat) := do
  let (nin, r1) ← decode_varint bs
  let (ins, r2) ← decodeTxIns nin r1
  let (nout, r3) ← decode_varint r2
  let (outs, r4) ← decodeTxOuts nout r3
  let (wits, r5) ← decodeWitnesses nin r4
  let (lt, r6) ← readLE 4 r5
  pure (⟨ver, lt, List.zipWith (fun i w => { i with witness := w }) ins wits, outs⟩, r6)

/-- Modelled from the spec (§4.3): decoding a transaction reads the 4-byte
version and then, if the next two bytes are the segwit marker+flag
`0x00 0x01`, the segwit-marked body, otherwise the non-segwit body. -/
def decodeTx (bs : List Nat) : Option (BitcoinTransaction × List Nat) := do
  let (ver, r1) ← readLE 4 bs
  if r1.take 2 = [0x00, 0x01] then segwitParse ver (r1.drop 2)
  else nonSegwitParse ver r1

/-- A valid `TxIn` value: every numeric field fits its machine width, the
txid is 32 bytes, and the script and witness sizes fit a compact-size. -/
def validTxIn (i : TxIn) : Prop :=
  i.previous_output.txid.hash.bytes.length = 32 ∧
  i.previous_output.vout < 4294967296 ∧
  i.script_sig.length < 18446744073709551616 ∧
  i.sequence.val < 4294967296 ∧
  i.witness.length < 18446744073709551616 ∧
  ∀ item ∈ i.witness, item.length < 18446744073709551616

/-- A valid `TxOut` value: the amount is a `u64` and the script size fits a
compact-size. -/
def validTxOut (o : TxOut) : Prop :=
  o.value < 18446744073709551616 ∧ o.script_pubkey.length < 18446744073709551616

/-- A valid `BitcoinTransaction` value: version and lock_time are `u32`, at
least one input is present (a zero-input transaction is not valid on the
network, and its non-segwit encoding would collide with the segwit marker),
the counts fit a compact-size, and every input and output is valid. -/
def validTx (tx : BitcoinTransaction) : Prop :=
  tx.version < 4294967296 ∧ tx.lock_time < 4294967296 ∧
  tx.input ≠ [] ∧ tx.input.length < 18446744073709551616 ∧
  tx.output.length < 18446744073709551616 ∧
  (∀ i ∈ tx.input, validTxIn i) ∧ (∀ o ∈ tx.output, validTxOut o)

/-- `encode_asn1_integer` (`src/bitcoin/utils.rs`): if the most significant
bit of the first byte is set, prepend a `0x00` byte; emit ASN.1 tag `0x02`,
the length (`as u8`), and the integer bytes. -/
def encode_asn1_integer (bytes : List Nat) : List Nat :=
  let integer := if bytes.headI &&& 0x80 ≠ 0 then 0x00 :: bytes else bytes
  0x02 :: integer.length % 256 :: integer

/-- `encode_signature_as_der` (`src/bitcoin/utils.rs`): asserts the
signature is 64 bytes (modelled as `none` on failure), splits it into `r`
and `s` halves, DER-encodes each as an ASN.1 integer, and emits
`0x30, total_len, r_der, s_der`. -/
def encode_signature_as_der (signature_bytes : List Nat) : Option (List Nat) :=
  if signature_bytes.length = 64 then
    let r := signature_bytes.take 32
    let s := signature_bytes.drop 32
    let r_der := encode_asn1_integer r
    let s_der := encode_asn1_integer s
    let total_len := r_der.length + s_der.length
    some (0x30 :: total_len % 256 :: (r_der ++ s_der))
  else none

/-- `serialize_ecdsa_signature` (`src/bitcoin/utils.rs`): DER-encode the raw
64-byte signature and append the SIGHASH type byte. -/
def serialize_ecdsa_signature (signature_bytes : List Nat) (sighash_type : Nat) :
    Option (List Nat) :=
  (encode_signature_as_der signature_bytes).map (fun der => der ++ [sighash_type])

/-- Value of a hexadecimal digit character, as `hex::decode` accepts them. -/
def hexDigitVal (c : Char) : Option Nat :=
  if 48 ≤ c.toNat ∧ c.toNat ≤ 57 then some (c.toNat - 48)
  else if 97 ≤ c.toNat ∧ c.toNat ≤ 102 then some (c.toNat - 87)
  else if 65 ≤ c.toNat ∧ c.toNat ≤ 70 then some (c.toNat - 55)
  else none

/-- `hex::decode`: pairs of hex digits to bytes; fails on an odd-length
string or a non-hex character. -/
def hexDecodeList : List Char → Option (List Nat)
  | [] => some []
  | [_] => none
  | c1 :: c2 :: rest =>
    match hexDigitVal c1, hexDigitVal c2, hexDecodeList rest with
    | some hi, some lo, some tail => some ((16 * hi + lo) :: tail)
    | _, _, _ => none

/-- `serialize_ecdsa_signature_from_str` (`src/bitcoin/utils.rs`): hex-decode
`big_r` and `s` (`unwrap` panics, modelled as `none`), drop the first byte of
`big_r` (the point-compression tag; Rust's `&v[1..]` panics when `v` is
empty), concatenate with `s`, and serialize with the fixed SIGHASH type
`0x01` (SIGHASH_ALL). -/
def serialize_ecdsa_signature_from_str (big_r s : String) : Option (List Nat) :=
  match hexDecodeList big_r.toList, hexDecodeList s.toList with
  | some big_r_bytes, some s_bytes =>
    if big_r_bytes.isEmpty then none
    else serialize_ecdsa_signature (big_r_bytes.drop 1 ++ s_bytes) 0x01
  | _, _ => none

/-- The DER integer layout as the claim states it: `x` with a single `0x00`
prepended exactly when the most significant bit of its first byte is set. -/
def asn1IntSpec (x : List Nat) : List Nat :=
  if x.headI.testBit 7 then 0x00 :: x else x

/-- The DER signature layout as the claim states it:
`0x30, total_len, 0x02, len r, r, 0x02, len s, s` over the padded halves. -/
def derSpecLayout (r s : List Nat) : List Nat :=
  [0x30, (2 + (asn1IntSpec r).length) + (2 + (asn1IntSpec s).length),
   0x02, (asn1IntSpec r).length] ++ asn1IntSpec r
  ++ [0x02, (asn1IntSpec s).length] ++ asn1IntSpec s

/-- `fromLE` inverts `leBytes` up to reduction modulo `256 ^ w`. -/
theorem fromLE_leBytes (w n : Nat) : fromLE (leBytes w n) = n % 256 ^ w := by
  induction w generalizing n with
  | zero => simp [leBytes, fromLE, Nat.mod_one]
  | succ w ih =>
      simp only [leBytes, fromLE, ih]
      rw [pow_succ, mul_comm (256 ^ w) 256, Nat.mod_mul]

/-- `leBytes w n` always has length `w`. -/
theorem leBytes_length (w n : Nat) : (leBytes w n).length = w := by
  induction w generalizing n with
  | zero => rfl
  | succ w ih => simp [leBytes, ih]

/-- Reading `w` bytes from `leBytes w n ++ rest` yields `n % 256 ^ w` and `rest`. -/
theorem readLE_leBytes (w n : Nat) (rest : List Nat) :
    readLE w (leBytes w n ++ rest) = some (n % 256 ^ w, rest) := by
  have hlen : (leBytes w n).length = w := leBytes_length w n
  have hle : w ≤ (leBytes w n ++ rest).length := by
    simp [List.length_append, hlen]
  simp only [readLE, readBytes, if_pos hle, Option.map_some]
  rw [List.take_left' hlen, List.drop_left' hlen]
  simp [fromLE_leBytes]

/-- A sample 32-byte txid for concrete checks. -/
def sampleTxid : Txid := ⟨⟨List.replicate 32 1⟩⟩

/-- A sample input with a populated script_sig and no witness. -/
def sampleIn0 : TxIn := ⟨⟨sampleTxid, 0⟩, [0xAB], ⟨0xFFFFFFFD⟩, []⟩

/-- A sample input with an empty script_sig and a non-empty witness. -/
def sampleIn1 : TxIn := ⟨⟨sampleTxid, 1⟩, [], ⟨0xFFFFFFFF⟩, [[0x01, 0x02]]⟩

/-- A sample output. -/
def sampleOut : TxOut := ⟨5000, [0x51]⟩

/-- A sample two-input transaction, one input of which carries a witness. -/
def sampleTx : BitcoinTransaction := ⟨2, 0, [sampleIn0, sampleIn1], [sampleOut]⟩

/-- A sample transaction whose inputs all have empty witnesses. -/
def sampleTxNoWit : BitcoinTransaction := ⟨1, 5, [sampleIn0], [sampleOut]⟩

/-- Writing a list of chunks one by one into an accumulating buffer is the
same as appending their concatenation. -/
theorem foldl_append_flatten {α : Type} (f : α → List Nat) :
    ∀ (l : List α) (acc : List Nat),
      l.foldl (fun a x => a ++ f x) acc = acc ++ (l.map f).flatten := by
  intro l
  induction l with
  | nil => intro acc; simp
  | cons x xs ih => intro acc; simp [List.foldl_cons, ih]

/-- The compact-size decoder inverts the compact-size encoder on every
value that fits a `u64`, leaving the rest of the buffer untouched. -/
theorem decode_varint_encode (n : Nat) (hn : n < 18446744073709551616)
    (rest : List Nat) : decode_varint (encode_varint n ++ rest) = some (n, rest) := by
  by_cases h1 : n < 0xFD
  · rw [encode_varint, if_pos h1]
    show decode_varint (n :: rest) = some (n, rest)
    rw [decode_varint, if_neg (by omega), if_neg (by omega), if_neg (by omega)]
  · by_cases h2 : n < 0x10000
    · rw [encode_varint, if_neg h1, if_pos h2]
      show decode_varint (0xFD :: (leBytes 2 n ++ rest)) = some (n, rest)
      rw [decode_varint, if_pos rfl, readLE_leBytes,
        Nat.mod_eq_of_lt (show n < 256 ^ 2 by omega)]
      show (if n < 0xFD then none else some (n, rest)) = some (n, rest)
      rw [if_neg (by omega)]
    · by_cases h3 : n < 0x100000000
      · rw [encode_varint, if_neg h1, if_neg h2, if_pos h3]
        show decode_varint (0xFE :: (leBytes 4 n ++ rest)) = some (n, rest)
        rw [decode_varint, if_neg (by omega), if_pos rfl, readLE_leBytes,
          Nat.mod_eq_of_lt (show n < 256 ^ 4 by omega)]
        show (if n < 0x10000 then none else some (n, rest)) = some (n, rest)
        rw [if_neg (by omega)]
      · rw [encode_varint, if_neg h1, if_neg h2, if_neg h3]
        show decode_varint (0xFF :: (leBytes 8 n ++ rest)) = some (n, rest)
        rw [decode_varint, if_neg (by omega), if_neg (by omega), if_pos rfl,
          readLE_leBytes, Nat.mod_eq_of_lt (show n < 256 ^ 8 by omega)]
        show (if n < 0x100000000 then none else some (n, rest)) = some (n, rest)
        rw [if_neg (by omega)]

/-- Reading back exactly the bytes just written leaves the tail intact. -/
theorem readBytes_append (s rest : List Nat) :
    readBytes s.length (s ++ rest) = some (s, rest) := by
  have h : s.length ≤ (s ++ rest).length := by simp
  simp [readBytes, h, List.take_left, List.drop_left]

/-- `Sequence` decode inverts encode on any `u32` value, with a tail. -/
theorem seq_decode_encode (s : Sequence) (h : s.val < 4294967296)
    (rest : List Nat) : Sequence.decode (Sequence.encode s ++ rest) = some (s, rest) := by
  simp [Sequence.decode, Sequence.encode, readLE_leBytes, Nat.mod_eq_of_lt h]

/-- `Hash` decode inverts encode on any 32-byte digest, with a tail. -/
theorem hash_decode_encode (hh : Hash) (h : hh.bytes.length = 32)
    (rest : List Nat) : Hash.decode (Hash.encode hh ++ rest) = some (hh, rest) := by
  have h2 := readBytes_append hh.bytes rest
  rw [h] at h2
  simp [Hash.decode, Hash.encode, h2]

/-- `Txid` decode inverts encode on any 32-byte txid, with a tail. -/
theorem txid_decode_encode (t : Txid) (h : t.hash.bytes.length = 32)
    (rest : List Nat) : Txid.decode (Txid.encode t ++ rest) = some (t, rest) := by
  simp [Txid.decode, Txid.encode, hash_decode_encode t.hash h rest]

/-- `OutPoint` decode inverts encode on any valid outpoint, with a tail. -/
theorem outPoint_decode_encode (op : OutPoint)
    (h32 : op.txid.hash.bytes.length = 32) (hv : op.vout < 4294967296)
    (rest : List Nat) : decodeOutPoint (encodeOutPoint op ++ rest) = some (op, rest) := by
  simp only [encodeOutPoint, List.append_assoc]
  simp [decodeOutPoint, txid_decode_encode op.txid h32, readLE_leBytes,
    Nat.mod_eq_of_lt hv, Option.bind_eq_bind, Option.some_bind, Option.pure_def]

/-- `ScriptBuf` decode inverts encode on any script that fits a
compact-size, with a tail. -/
theorem scriptBuf_decode_encode (s : List Nat)
    (h : s.length < 18446744073709551616) (rest : List Nat) :
    decodeScriptBuf (encodeScriptBuf s ++ rest) = some (s, rest) := by
  simp only [encodeScriptBuf, List.append_assoc]
  simp [decodeScriptBuf, decode_varint_encode s.length h, readBytes_append,
    Option.bind_eq_bind, Option.some_bind, Option.pure_def]

/-- The witness-item loop decodes back exactly the items just encoded. -/
theorem witnessItems_decode_encode :
    ∀ (w : List (List Nat)), (∀ item ∈ w, item.length < 18446744073709551616) →
      ∀ (rest : List Nat),
        decodeWitnessItems w.length ((w.map encodeScriptBuf).flatten ++ rest)
          = some (w, rest) := by
  intro w
  induction w with
  | nil => intro _ rest; simp [decodeWitnessItems]
  | cons item items ih =>
      intro h rest
      simp only [List.map_cons, List.flatten_cons, List.length_cons,
        List.append_assoc]
      simp [decodeWitnessItems, scriptBuf_decode_encode item (h item (by simp)),
        ih (fun x hx => h x (by simp [hx])) rest,
        Option.bind_eq_bind, Option.some_bind, Option.pure_def]

/-- `Witness` decode inverts encode on any valid witness, with a tail. -/
theorem witness_decode_encode (w : List (List Nat))
    (hlen : w.length < 18446744073709551616)
    (hitems : ∀ item ∈ w, item.length < 18446744073709551616)
    (rest : List Nat) : decodeWitness (encodeWitness w ++ rest) = some (w, rest) := by
  have hform : encodeWitness w
      = encode_varint w.length ++ (w.map encodeScriptBuf).flatten := rfl
  rw [hform, List.append_assoc]
  simp [decodeWitness, decode_varint_encode w.length hlen,
    witnessItems_decode_encode w hitems rest,
    Option.bind_eq_bind, Option.some_bind, Option.pure_def]

/-- `TxIn` decode inverts the standalone (witness-less) encode, yielding the
input with an empty witness, with a tail. -/
theorem txIn_decode_encode (i : TxIn) (h : validTxIn i) (rest : List Nat) :
    decodeTxIn (encodeTxIn i ++ rest) = some ({ i with witness := [] }, rest) := by
  obtain ⟨h32, hv, hss, hsq, _, _⟩ := h
  simp only [encodeTxIn, List.append_assoc]
  simp [decodeTxIn, outPoint_decode_encode i.previous_output h32 hv,
    scriptBuf_decode_encode i.script_sig hss,
    seq_decode_encode i.sequence hsq,
    Option.bind_eq_bind, Option.some_bind, Option.pure_def]

/-- The input loop decodes back exactly the inputs just encoded, each with
an empty witness. -/
theorem txIns_decode_encode :
    ∀ (l : List TxIn), (∀ i ∈ l, validTxIn i) → ∀ (rest : List Nat),
      decodeTxIns l.length ((l.map encodeTxIn).flatten ++ rest)
        = some (l.map (fun i => { i with witness := [] }), rest) := by
  intro l
  induction l with
  | nil => intro _ rest; simp [decodeTxIns]
  | cons i is ih =>
      intro h rest
      simp only [List.map_cons, List.flatten_cons, List.length_cons,
        List.append_assoc]
      simp [decodeTxIns, txIn_decode_encode i (h i (by simp)),
        ih (fun x hx => h x (by simp [hx])) rest,
        Option.bind_eq_bind, Option.some_bind, Option.pure_def]

/-- `TxOut` decode inverts encode on any valid output, with a tail. -/
theorem txOut_decode_encode (o : TxOut) (h : validTxOut o) (rest : List Nat) :
    decodeTxOut (encodeTxOut o ++ rest) = some (o, rest) := by
  obtain ⟨ha, hspk⟩ := h
  simp only [encodeTxOut, List.append_assoc]
  simp [decodeTxOut, readLE_leBytes, Nat.mod_eq_of_lt ha,
    scriptBuf_decode_encode o.script_pubkey hspk,
    Option.bind_eq_bind, Option.some_bind, Option.pure_def]

/-- The output loop decodes back exactly the outputs just encoded. -/
theorem txOuts_decode_encode :
    ∀ (l : List TxOut), (∀ o ∈ l, validTxOut o) → ∀ (rest : List Nat),
      decodeTxOuts l.length ((l.map encodeTxOut).flatten ++ rest) = some (l, rest) := by
  intro l
  induction l with
  | nil => intro _ rest; simp [decodeTxOuts]
  | cons o os ih =>
      intro h rest
      simp only [List.map_cons, List.flatten_cons, List.length_cons,
        List.append_assoc]
      simp [decodeTxOuts, txOut_decode_encode o (h o (by simp)),
        ih (fun x hx => h x (by simp [hx])) rest,
        Option.bind_eq_bind, Option.some_bind, Option.pure_def]

/-- The witness loop decodes back exactly the per-input witnesses just
encoded, in input order. -/
theorem witnesses_decode_encode :
    ∀ (l : List TxIn), (∀ i ∈ l, validTxIn i) → ∀ (rest : List Nat),
      decodeWitnesses l.length ((l.map (fun i => encodeWitness i.witness)).flatten ++ rest)
        = some (l.map (fun i => i.witness), rest) := by
  intro l
  induction l with
  | nil => intro _ rest; simp [decodeWitnesses]
  | cons i is ih =>
      intro h rest
      obtain ⟨_, _, _, _, hwl, hwi⟩ := h i (by simp)
      simp only [List.map_cons, List.flatten_cons, List.length_cons,
        List.append_assoc]
      simp [decodeWitnesses, witness_decode_encode i.witness hwl hwi,
        ih (fun x hx => h x (by simp [hx])) rest,
        Option.bind_eq_bind, Option.some_bind, Option.pure_def]

/-- Reattaching each input's own witness to its witness-stripped form
recovers the original inputs. -/
theorem zipWith_blank_witness :
    ∀ l : List TxIn,
      List.zipWith (fun i w => { i with witness := w })
        (l.map (fun i => { i with witness := [] })) (l.map (fun i => i.witness)) = l := by
  intro l
  induction l with
  | nil => rfl
  | cons i is ih => simp [ih]

/-- Stripping witnesses from inputs that already have none is the identity. -/
theorem map_blank_witness_eq_self (l : List TxIn)
    (h : ∀ i ∈ l, i.witness = []) :
    l.map (fun i => { i with witness := [] }) = l := by
  induction l with
  | nil => rfl
  | cons i is ih =>
      have hi : i.witness = [] := h i (by simp)
      have he : ({ i with witness := [] } : TxIn) = i := by
        cases i; simp_all
      simp [he, ih (fun x hx => h x (by simp [hx]))]

/-- A non-segwit body for a transaction with at least one input never starts
with the segwit marker+flag. -/
theorem take2_encode_varint_ne (n : Nat) (h : n ≠ 0) (tail : List Nat) :
    (encode_varint n ++ tail).take 2 ≠ [0x00, 0x01] := by
  rw [encode_varint]
  split_ifs with h1 h2 h3 <;>
    intro hEq <;>
    simp [List.take_succ_cons, List.cons.injEq] at hEq <;>
    omega

/-- The transaction decoder inverts `serialize` on every valid transaction,
witnesses included: all-empty witnesses round-trip through the non-segwit
form, and any non-empty witness round-trips through the segwit-marked form. -/
theorem decodeTx_serialize (tx : BitcoinTransaction) (h : validTx tx) :
    decodeTx (serialize tx) = some (tx, []) := by
  obtain ⟨hver, hlock, hne, hilen, holen, hins, houts⟩ := h
  have hn0 : tx.input.length ≠ 0 := by simpa using hne
  have hlock4 : readLE 4 (leBytes 4 tx.lock_time) = some (tx.lock_time, []) := by
    have h4 := readLE_leBytes 4 tx.lock_time []
    rwa [List.append_nil, Nat.mod_eq_of_lt (show tx.lock_time < 256 ^ 4 by omega)] at h4
  by_cases hwit : tx.input.any (fun i => !i.witness.isEmpty)
  · have hserial : serialize tx = segwitMarkedSerialize tx := by
      simp [serialize, hwit]
    rw [hserial, segwitMarkedSerialize, foldl_append_flatten, foldl_append_flatten,
      foldl_append_flatten]
    simp only [List.nil_append, List.append_assoc, List.cons_append]
    simp only [decodeTx, readLE_leBytes,
      Nat.mod_eq_of_lt (show tx.version < 256 ^ 4 by omega),
      Option.bind_eq_bind, Option.some_bind, Option.pure_def]
    rw [if_pos (by simp [List.take_succ_cons])]
    simp only [List.drop_succ_cons, List.drop_zero]
    simp [segwitParse, decode_varint_encode tx.input.length (by omega),
      txIns_decode_encode tx.input hins,
      decode_varint_encode tx.output.length (by omega),
      txOuts_decode_encode tx.output houts,
      witnesses_decode_encode tx.input hins, hlock4, zipWith_blank_witness,
      Option.bind_eq_bind, Option.some_bind, Option.pure_def]
  · have hall : ∀ i ∈ tx.input, i.witness = [] := by
      intro i hi
      have hfalse : tx.input.any (fun i => !i.witness.isEmpty) = false := by
        simpa using hwit
      rw [List.any_eq_false] at hfalse
      have := hfalse i hi
      simpa [List.isEmpty_iff] using this
    have hserial : serialize tx = nonSegwitSerialize tx := by
      simp [serialize, hwit]
    rw [hserial, nonSegwitSerialize, foldl_append_flatten, foldl_append_flatten]
    simp only [List.nil_append, List.append_assoc]
    simp only [decodeTx, readLE_leBytes,
      Nat.mod_eq_of_lt (show tx.version < 256 ^ 4 by omega),
      Option.bind_eq_bind, Option.some_bind, Option.pure_def]
    rw [if_neg (take2_encode_varint_ne tx.input.length hn0 _)]
    simp [nonSegwitParse, decode_varint_encode tx.input.length (by omega),
      txIns_decode_encode tx.input hins,
      decode_varint_encode tx.output.length (by omega),
      txOuts_decode_encode tx.output houts, hlock4,
      map_blank_witness_eq_self tx.input hall,
      Option.bind_eq_bind, Option.some_bind, Option.pure_def]

/-- claim C4: decoding the bytes produced by encoding a valid value of each
primitive type yields exactly that value, consuming the whole buffer — for
Sequence (`u32` value), Hash and Txid (32-byte digest), Amount (`u64`),
Version and LockTime (`u32`), OutPoint, ScriptBuf, Witness, TxIn (whose
standalone wire form per §3 carries no witness, so its witness field is
empty), TxOut, and BitcoinTransaction (witnesses included: a witness-less
transaction round-trips through the non-segwit form, a witness-carrying one
through the segwit-marked form). -/
theorem claim_C4 (n : Nat) (bs : List Nat) (hn : n < 4294967296)
    (hbs : bs.length = 32) (a v lt : Nat) (ha : a < 18446744073709551616)
    (hv : v < 4294967296) (hlt : lt < 4294967296)
    (op : OutPoint) (hop32 : op.txid.hash.bytes.length = 32)
    (hopv : op.vout < 4294967296)
    (s : List Nat) (hs : s.length < 18446744073709551616)
    (w : List (List Nat)) (hwl : w.length < 18446744073709551616)
    (hwi : ∀ item ∈ w, item.length < 18446744073709551616)
    (i : TxIn) (hvi : validTxIn i) (hiw : i.witness = [])
    (o : TxOut) (hvo : validTxOut o)
    (tx : BitcoinTransaction) (htx : validTx tx) :
    Sequence.decode (Sequence.encode ⟨n⟩) = some (⟨n⟩, []) ∧
    Txid.decode (Txid.encode ⟨⟨bs⟩⟩) = some (⟨⟨bs⟩⟩, []) ∧
    Hash.decode (Hash.encode ⟨bs⟩) = some (⟨bs⟩, []) ∧
    decodeAmount (encodeAmount a) = some (a, []) ∧
    decodeVersion (encodeVersion v) = some (v, []) ∧
    decodeLockTime (encodeLockTime lt) = some (lt, []) ∧
    decodeOutPoint (encodeOutPoint op) = some (op, []) ∧
    decodeScriptBuf (encodeScriptBuf s) = some (s, []) ∧
    decodeWitness (encodeWitness w) = some (w, []) ∧
    decodeTxIn (encodeTxIn i) = some (i, []) ∧
    decodeTxOut (encodeTxOut o) = some (o, []) ∧
    decodeTx (serialize tx) = some (tx, []) := by
  refine ⟨?_, ?_, ?_, ?_, ?_, ?_, ?_, ?_, ?_, ?_, ?_, ?_⟩
  · have h := seq_decode_encode ⟨n⟩ hn []
    rwa [List.append_nil] at h
  · have h := txid_decode_encode ⟨⟨bs⟩⟩ hbs []
    rwa [List.append_nil] at h
  · have h := hash_decode_encode ⟨bs⟩ hbs []
    rwa [List.append_nil] at h
  · have h := readLE_leBytes 8 a []
    rw [List.append_nil] at h
    simp [decodeAmount, encodeAmount, h, Nat.mod_eq_of_lt ha]
  · have h := readLE_leBytes 4 v []
    rw [List.append_nil] at h
    simp [decodeVersion, encodeVersion, h, Nat.mod_eq_of_lt hv]
  · have h := readLE_leBytes 4 lt []
    rw [List.append_nil] at h
    simp [decodeLockTime, encodeLockTime, h, Nat.mod_eq_of_lt hlt]
  · have h := outPoint_decode_encode op hop32 hopv []
    rwa [List.append_nil] at h
  · have h := scriptBuf_decode_encode s hs []
    rwa [List.append_nil] at h
  · have h := witness_decode_encode w hwl hwi []
    rwa [List.append_nil] at h
  · have h := txIn_decode_encode i hvi []
    rw [List.append_nil] at h
    have he : ({ i with witness := [] } : TxIn) = i := by
      cases i; simp_all
    rwa [he] at h
  · have h := txOut_decode_encode o hvo []
    rwa [List.append_nil] at h
  · exact decodeTx_serialize tx htx

/-- claim C4 witness: round trip at `Sequence(42)`, the all-zeros hash and
txid, concrete amount/version/locktime values, a concrete outpoint, script,
witness, input, output, and the sample two-input transaction (whose second
input carries a non-empty witness, exercising the segwit form). -/
theorem claim_C4_witness :
    (42 < 4294967296 ∧ (List.replicate 32 0).length = 32 ∧
      validTxIn sampleIn0 ∧ sampleIn0.witness = [] ∧
      validTxOut sampleOut ∧ validTx sampleTx) ∧
    Sequence.decode (Sequence.encode ⟨42⟩) = some (⟨42⟩, []) ∧
    Txid.decode (Txid.encode ⟨⟨List.replicate 32 0⟩⟩) =
      some (⟨⟨List.replicate 32 0⟩⟩, []) ∧
    decodeAmount (encodeAmount 5000) = some (5000, []) ∧
    decodeOutPoint (encodeOutPoint ⟨sampleTxid, 1⟩) = some (⟨sampleTxid, 1⟩, []) ∧
    decodeScriptBuf (encodeScriptBuf [0x51]) = some ([0x51], []) ∧
    decodeWitness (encodeWitness [[0x01, 0x02]]) = some ([[0x01, 0x02]], []) ∧
    decodeTxIn (encodeTxIn sampleIn0) = some (sampleIn0, []) ∧
    decodeTxOut (encodeTxOut sampleOut) = some (sampleOut, []) ∧
    decodeTx (serialize sampleTx) = some (sampleTx, []) := by
  have h := claim_C4 42 (List.replicate 32 0) (by decide) (by decide)
    5000 2 0 (by decide) (by decide) (by decide)
    ⟨sampleTxid, 1⟩ (by decide) (by decide)
    [0x51] (by decide)
    [[0x01, 0x02]] (by decide) (by decide)
    sampleIn0 (by unfold validTxIn; decide) (by decide)
    sampleOut (by unfold validTxOut; decide)
    sampleTx (by unfold validTx validTxIn validTxOut; decide)
  exact ⟨⟨by decide, by decide, by unfold validTxIn; decide, by decide,
      by unfold validTxOut; decide, by unfold validTx validTxIn validTxOut; decide⟩,
    h.1, h.2.1, h.2.2.2.1, h.2.2.2.2.2.2.1, h.2.2.2.2.2.2.2.1,
    h.2.2.2.2.2.2.2.2.1, h.2.2.2.2.2.2.2.2.2.1, h.2.2.2.2.2.2.2.2.2.2.1,
    h.2.2.2.2.2.2.2.2.2.2.2⟩

/-- claim C5: the compact-size encoder emits the minimal-width form (decoding
it back yields the value, and the width is the minimal one for the value's
range), and decoding any over-long (non-minimal) compact-size encoding fails
instead of returning the value. -/
theorem claim_C5 (n v : Nat) (rest : List Nat) (hn : n < 18446744073709551616) :
    decode_varint (encode_varint n ++ rest) = some (n, rest) ∧
    (encode_varint n).length =
      (if n < 0xFD then 1 else if n < 0x10000 then 3
       else if n < 0x100000000 then 5 else 9) ∧
    (v < 0xFD → decode_varint (0xFD :: (leBytes 2 v ++ rest)) = none) ∧
    (v < 0x10000 → decode_varint (0xFE :: (leBytes 4 v ++ rest)) = none) ∧
    (v < 0x100000000 → decode_varint (0xFF :: (leBytes 8 v ++ rest)) = none) := by
  refine ⟨?_, ?_, ?_, ?_, ?_⟩
  · exact decode_varint_encode n hn rest
  · rw [encode_varint]
    by_cases h1 : n < 0xFD
    · simp [h1]
    · by_cases h2 : n < 0x10000
      · simp [h1, h2, leBytes_length]
      · by_cases h3 : n < 0x100000000
        · simp [h1, h2, h3, leBytes_length]
        · simp [h1, h2, h3, leBytes_length]
  · intro hv
    rw [decode_varint, if_pos rfl, readLE_leBytes,
      Nat.mod_eq_of_lt (show v < 256 ^ 2 by omega)]
    show (if v < 0xFD then none else some (v, rest)) = none
    rw [if_pos hv]
  · intro hv
    rw [decode_varint, if_neg (by omega), if_pos rfl, readLE_leBytes,
      Nat.mod_eq_of_lt (show v < 256 ^ 4 by omega)]
    show (if v < 0x10000 then none else some (v, rest)) = none
    rw [if_pos hv]
  · intro hv
    rw [decode_varint, if_neg (by omega), if_neg (by omega), if_pos rfl,
      readLE_leBytes, Nat.mod_eq_of_lt (show v < 256 ^ 8 by omega)]
    show (if v < 0x100000000 then none else some (v, rest)) = none
    rw [if_pos hv]

/-- claim C5 witness: the two-byte boundary value `0xFD` round-trips in the
3-byte form, and the over-long 2-byte encoding of `42` is rejected. -/
theorem claim_C5_witness :
    253 < 18446744073709551616 ∧
    decode_varint (encode_varint 253 ++ [7]) = some (253, [7]) ∧
    (encode_varint 253).length = 3 ∧
    decode_varint (0xFD :: (leBytes 2 42 ++ [7])) = none ∧
    decode_varint (0xFE :: (leBytes 4 42 ++ [7])) = none ∧
    decode_varint (0xFF :: (leBytes 8 42 ++ [7])) = none := by
  have h := claim_C5 253 42 [7] (by decide)
  exact ⟨by decide, h.1, by simpa using h.2.1, h.2.2.1 (by decide),
    h.2.2.2.1 (by decide), h.2.2.2.2 (by decide)⟩

/-- claim C6: DER serialization of a raw signature succeeds exactly on
64-byte inputs; any other length fails instead of producing an encoding,
both in `encode_signature_as_der` and in `serialize_ecdsa_signature`. -/
theorem claim_C6 (bs : List Nat) (st : Nat) :
    ((encode_signature_as_der bs).isSome ↔ bs.length = 64) ∧
    ((serialize_ecdsa_signature bs st).isSome ↔ bs.length = 64) := by
  by_cases h : bs.length = 64 <;>
    simp [encode_signature_as_der, serialize_ecdsa_signature, h]

/-- claim C7: the `Sequence` sentinel constants have exactly the specified
values and the default is `MAX`. -/
theorem claim_C7 :
    Sequence.MAX = ⟨0xFFFFFFFF⟩ ∧
    Sequence.ENABLE_RBF_NO_LOCKTIME = ⟨0xFFFFFFFD⟩ ∧
    Sequence.ENABLE_LOCKTIME_NO_RBF = ⟨0xFFFFFFFE⟩ ∧
    Sequence.MIN_NO_RBF = ⟨0xFFFFFFFE⟩ ∧
    (default : Sequence) = Sequence.MAX := by
  refine ⟨rfl, rfl, rfl, rfl, rfl⟩

/-- claim C8: encoding `Sequence(42)` writes exactly the four bytes
`2A 00 00 00` (so the returned byte count is 4), and decoding those bytes
returns `Sequence(42)`. -/
theorem claim_C8 :
    Sequence.encode ⟨42⟩ = [0x2A, 0x00, 0x00, 0x00] ∧
    (Sequence.encode ⟨42⟩).length = 4 ∧
    Sequence.decode [0x2A, 0x00, 0x00, 0x00] = some (⟨42⟩, []) := by
  refine ⟨by decide, by decide, by decide⟩

/-- Fetching with `get?` at an in-range index is fetching with `getD`. -/
theorem get?_eq_getD {α : Type} [Inhabited α] (l : List α) (i : Nat)
    (h : i < l.length) : l.get? i = some (l.getD i default) := by
  rw [List.get?_eq_getElem?, List.getElem?_eq_getElem h, List.getD_eq_getElem _ _ h]

/-- claim C1: for every in-range input index, the segwit signing preimage is
exactly the ten-item BIP-143 concatenation (version, hashPrevouts,
hashSequence, the outpoint of the signed input, the script code, the 8-byte
LE input value, the signed input's sequence, hashOutputs, lock_time, 4-byte
LE sighash type), for every choice of the double-SHA-256 function. -/
theorem claim_C1 (hash256 : List Nat → List Nat) (tx : BitcoinTransaction)
    (st i : Nat) (sc : List Nat) (v : Nat) (h : i < tx.input.length) :
    build_for_signing_segwit hash256 tx st i sc v =
      some (bip143Preimage hash256 tx st i sc v) := by
  rw [build_for_signing_segwit, get?_eq_getD tx.input i h]
  simp only [bip143Preimage, foldl_append_flatten, List.nil_append]

/-- claim C1 witness: the preimage identity at a concrete two-input
transaction, signing input 0, with the identity in place of the hash. -/
theorem claim_C1_witness :
    0 < sampleTx.input.length ∧
    build_for_signing_segwit (fun b => b) sampleTx 1 0 [0x76] 5000 =
      some (bip143Preimage (fun b => b) sampleTx 1 0 [0x76] 5000) :=
  ⟨by decide, claim_C1 (fun b => b) sampleTx 1 0 [0x76] 5000 (by decide)⟩

/-- Emptying the script_sig of a `TxIn` whose script_sig is already empty is
the identity. -/
theorem blankMap_eq_self :
    ∀ (l : List TxIn), (∀ j, j < l.length → (l.getD j default).script_sig = []) →
      l.map (fun r => { r with script_sig := [] }) = l := by
  intro l
  induction l with
  | nil => intro _; rfl
  | cons r rs ih =>
      intro h
      have hr : r.script_sig = [] := by simpa using h 0 (by simp)
      have hrs := ih (fun j hj => by
        simpa [List.getD_cons_succ] using h (j + 1) (by simp; omega))
      have he : ({ r with script_sig := [] } : TxIn) = r := by
        cases r; simp_all
      simp [he, hrs]

/-- If every input except index `i` already has an empty script_sig, the
legacy signing form leaves the input list unchanged. -/
theorem blankAllExcept_eq_self :
    ∀ (i : Nat) (l : List TxIn),
      (∀ j, j < l.length → j ≠ i → (l.getD j default).script_sig = []) →
      blankAllExcept i l = l := by
  intro i l
  induction l generalizing i with
  | nil => intro _; cases i <;> rfl
  | cons inp rest ih =>
      intro h
      cases i with
      | zero =>
          show inp :: rest.map (fun r => { r with script_sig := [] }) = inp :: rest
          rw [blankMap_eq_self rest (fun j hj => by
            simpa [List.getD_cons_succ] using h (j + 1) (by simp; omega) (by omega))]
      | succ k =>
          have h0 : inp.script_sig = [] := by
            simpa using h 0 (by simp) (by omega)
          have he : ({ inp with script_sig := [] } : TxIn) = inp := by
            cases inp; simp_all
          show ({ inp with script_sig := [] } : TxIn) :: blankAllExcept k rest
              = inp :: rest
          rw [he, ih k (fun j hj hne => by
            simpa [List.getD_cons_succ] using h (j + 1) (by simp; omega) (by omega))]

/-- claim C2: on a built transaction in which every input other than the one
being signed has an empty script_sig and the signed input carries its real
script_sig, the legacy signing preimage is the non-segwit serialization of
the transaction with input `i`'s real script_sig and empty script_sigs
elsewhere, followed by the 4-byte little-endian sighash type. -/
theorem claim_C2 (tx : BitcoinTransaction) (st i : Nat)
    (hi : i < tx.input.length)
    (hothers : ∀ j, j < tx.input.length → j ≠ i →
      (tx.input.getD j default).script_sig = []) :
    build_for_signing_legacy tx st =
      nonSegwitSerialize (legacySigningForm tx i) ++ leBytes 4 st := by
  have hform : legacySigningForm tx i = tx := by
    unfold legacySigningForm
    rw [blankAllExcept_eq_self i tx.input hothers]
  rw [build_for_signing_legacy, hform]

/-- claim C2 witness: the legacy preimage identity at a concrete two-input
transaction whose input 0 carries the spending script. -/
theorem claim_C2_witness :
    0 < sampleTx.input.length ∧
    (∀ j, j < sampleTx.input.length → j ≠ 0 →
      (sampleTx.input.getD j default).script_sig = []) ∧
    build_for_signing_legacy sampleTx 1 =
      nonSegwitSerialize (legacySigningForm sampleTx 0) ++ leBytes 4 1 :=
  ⟨by decide, by decide, claim_C2 sampleTx 1 0 (by decide) (by decide)⟩

/-- claim C3: serialization produces the non-segwit layout exactly when every
input's witness is empty, and the segwit-marked layout (marker+flag
`0x00 0x01`, witnesses per input in order, empty witnesses as a zero-count
marker) as soon as any input carries a non-empty witness. -/
theorem claim_C3 (tx : BitcoinTransaction) :
    ((∀ inp ∈ tx.input, inp.witness = []) →
      serialize tx = claimedNonSegwitLayout tx) ∧
    ((∃ inp ∈ tx.input, inp.witness ≠ []) →
      serialize tx = claimedSegwitLayout tx) := by
  have hnon : nonSegwitSerialize tx = claimedNonSegwitLayout tx := by
    simp [nonSegwitSerialize, claimedNonSegwitLayout, foldl_append_flatten]
  have hwitfun : ∀ i : TxIn,
      (if i.witness = [] then [0x00] else encodeWitness i.witness)
        = encodeWitness i.witness := by
    intro i
    by_cases hw : i.witness = [] <;> simp [hw, encodeWitness, encode_varint]
  have hseg : segwitMarkedSerialize tx = claimedSegwitLayout tx := by
    simp [segwitMarkedSerialize, claimedSegwitLayout, foldl_append_flatten, hwitfun]
  constructor
  · intro hall
    have hany : tx.input.any (fun i => !i.witness.isEmpty) = false := by
      simp only [List.any_eq_false, Bool.not_eq_true]
      intro x hx
      simp [hall x hx]
    simp [serialize, hany, hnon]
  · rintro ⟨inp, hmem, hne⟩
    have hany : tx.input.any (fun i => !i.witness.isEmpty) = true := by
      rw [List.any_eq_true]
      exact ⟨inp, hmem, by simpa [List.isEmpty_iff] using hne⟩
    simp [serialize, hany, hseg]

/-- claim C3 witness: the all-empty-witness branch at a concrete one-input
transaction and the segwit-marked branch at a concrete two-input transaction
whose second input carries a witness. -/
theorem claim_C3_witness :
    ((∀ inp ∈ sampleTxNoWit.input, inp.witness = []) ∧
      serialize sampleTxNoWit = claimedNonSegwitLayout sampleTxNoWit) ∧
    ((∃ inp ∈ sampleTx.input, inp.witness ≠ []) ∧
      serialize sampleTx = claimedSegwitLayout sampleTx) :=
  ⟨⟨by decide, (claim_C3 sampleTxNoWit).1 (by decide)⟩,
   ⟨by decide, (claim_C3 sampleTx).2 (by decide)⟩⟩

/-- The bit test `b &&& 0x80 ≠ 0` of the source is the test of bit 7. -/
theorem land128_iff_testBit (b : Nat) : (b &&& 128 ≠ 0) ↔ b.testBit 7 := by
  have h : b &&& 128 = (b.testBit 7).toNat * 128 := by
    have := Nat.and_two_pow b 7
    norm_num at this
    exact this
  rw [h]
  cases hb : b.testBit 7 <;> simp

/-- `encode_asn1_integer` emits the tag, the length byte, and the
claim-specified padded integer. -/
theorem encode_asn1_integer_eq (x : List Nat) :
    encode_asn1_integer x
      = 0x02 :: (asn1IntSpec x).length % 256 :: asn1IntSpec x := by
  have h : (if x.headI &&& 0x80 ≠ 0 then 0x00 :: x else x) = asn1IntSpec x := by
    rw [asn1IntSpec]
    exact if_congr (land128_iff_testBit x.headI) rfl rfl
  simp only [encode_asn1_integer, h]

/-- The padded half is one byte longer at most. -/
theorem asn1IntSpec_length_le (x : List Nat) :
    (asn1IntSpec x).length ≤ x.length + 1 := by
  rw [asn1IntSpec]
  split <;> simp

/-- claim C9: on every 64-byte input `r ++ s`, the DER encoder returns
exactly `0x30, total_len, 0x02, len r, r, 0x02, len s, s` where each half
is padded with a single leading `0x00` exactly when its first byte has the
most significant bit set, and leading zero bytes are never stripped. -/
theorem claim_C9 (r s : List Nat) (hr : r.length = 32) (hs : s.length = 32) :
    encode_signature_as_der (r ++ s) = some (derSpecLayout r s) := by
  have hlen : (r ++ s).length = 64 := by simp [hr, hs]
  have hlr : (asn1IntSpec r).length ≤ 33 := by
    have := asn1IntSpec_length_le r; omega
  have hls : (asn1IntSpec s).length ≤ 33 := by
    have := asn1IntSpec_length_le s; omega
  simp only [encode_signature_as_der, hlen, if_pos, List.take_left' hr,
    List.drop_left' hr, encode_asn1_integer_eq, derSpecLayout,
    List.length_cons, List.cons_append, List.append_assoc, List.nil_append,
    reduceIte]
  rw [Nat.mod_eq_of_lt (show (asn1IntSpec r).length < 256 by omega),
    Nat.mod_eq_of_lt (show (asn1IntSpec s).length < 256 by omega)]
  have htot : ((asn1IntSpec r).length + 1 + 1 + ((asn1IntSpec s).length + 1 + 1)) % 256
      = 2 + (asn1IntSpec r).length + (2 + (asn1IntSpec s).length) := by omega
  rw [htot]

/-- claim C9 witness: the DER layout at a 64-byte signature whose `r` half
starts with `0x80` (forcing the pad byte) and whose `s` half does not. -/
theorem claim_C9_witness :
    (0x80 :: List.replicate 31 0).length = 32 ∧
    (List.replicate 32 1 : List Nat).length = 32 ∧
    encode_signature_as_der ((0x80 :: List.replicate 31 0) ++ List.replicate 32 1)
      = some (derSpecLayout (0x80 :: List.replicate 31 0) (List.replicate 32 1)) :=
  ⟨by decide, by decide,
   claim_C9 (0x80 :: List.replicate 31 0) (List.replicate 32 1) (by decide) (by decide)⟩

/-- claim C10: whenever both hex strings decode and `big_r` is non-empty,
`serialize_ecdsa_signature_from_str` drops exactly the first decoded byte of
`big_r`, concatenates the remainder with the decoded `s`, and serializes with
the fixed SIGHASH type `0x01`, which ends up as the final appended byte. -/
theorem claim_C10 (big_r s : String) (rb sb : List Nat)
    (hr : hexDecodeList big_r.toList = some rb)
    (hs : hexDecodeList s.toList = some sb) (hne : rb ≠ []) :
    serialize_ecdsa_signature_from_str big_r s
      = serialize_ecdsa_signature (rb.drop 1 ++ sb) 0x01 ∧
    ∀ out, serialize_ecdsa_signature (rb.drop 1 ++ sb) 0x01 = some out →
      out.getLast? = some 0x01 := by
  constructor
  · rw [serialize_ecdsa_signature_from_str, hr, hs]
    simp [List.isEmpty_iff, hne]
  · intro out hout
    rw [serialize_ecdsa_signature] at hout
    cases hder : encode_signature_as_der (rb.drop 1 ++ sb) with
    | none => rw [hder] at hout; simp at hout
    | some der =>
        have h : out = der ++ [0x01] := by
          rw [hder] at hout
          exact (Option.some.inj hout).symm
        rw [h, List.getLast?_concat]

/-- claim C10 witness: a compressed-point hex `big_r` and an `s` that decode
to a full 64-byte signature body. -/
theorem claim_C10_witness :
    hexDecodeList ("020000000000000000000000000000000000000000000000000000000000000000".toList)
      = some (2 :: List.replicate 32 0) ∧
    hexDecodeList ("1111111111111111111111111111111111111111111111111111111111111111".toList)
      = some (List.replicate 32 17) ∧
    (2 :: List.replicate 32 0 : List Nat) ≠ [] ∧
    serialize_ecdsa_signature_from_str
        "020000000000000000000000000000000000000000000000000000000000000000"
        "1111111111111111111111111111111111111111111111111111111111111111"
      = serialize_ecdsa_signature
          ((2 :: List.replicate 32 0).drop 1 ++ List.replicate 32 17) 0x01 :=
  ⟨by decide, by decide, by decide,
   (claim_C10 _ _ (2 :: List.replicate 32 0) (List.replicate 32 17)
     (by decide) (by decide) (by decide)).1⟩

end OmniBtc
